import Mathlib

/-!
Verification of `start_services.py`, a sequential orchestration script.

The script is shell-out glue: every effect is a file read/write or a
blocking subprocess call.  We embed it shallowly:

* file contents are `List Char` (Python `str` operations `in`, `replace`,
  `strip`, `split` are reimplemented over `List Char` with Python's
  semantics);
* each fallible external effect (subprocess call, file copy, file write,
  file read) is an oracle value of type `Except PyErr _` supplied in an
  environment record: `.error` models the Python call raising, `.ok`
  models it returning (with captured stdout where the script reads it);
* a Python function that may raise to its caller is embedded as a
  function into `Except PyErr Outcome`; a `try/except` block in the
  source corresponds to a `match` that maps `.error` to a normal (`.ok`)
  outcome, mirroring exactly which region of the source is guarded.
-/

/-- A Python exception value (only its presence matters here). -/
def PyErr : Type := String

namespace StartServices

/-! ## Python string primitives over `List Char` -/

/-- Python `sub in s` (substring containment): some index of `s` starts
with `sub`.  On `[]` it holds exactly for the empty pattern, as in Python. -/
def containsSub (pat : List Char) : List Char → Bool
  | [] => pat.isEmpty
  | c :: rest => pat.isPrefixOf (c :: rest) || containsSub pat rest

/-- Structural worker for `replaceAll`; `fuel` bounds the length of the
list argument, so the `0` case with a non-empty list is unreachable. -/
def replaceAllAux (pat rep : List Char) : Nat → List Char → List Char
  | 0, s => s
  | fuel + 1, s =>
    match s with
    | [] => []
    | c :: rest =>
      if !pat.isEmpty && pat.isPrefixOf (c :: rest) then
        rep ++ replaceAllAux pat rep fuel ((c :: rest).drop pat.length)
      else
        c :: replaceAllAux pat rep fuel rest

/-- Python `s.replace(old, new)`: scan left to right, replacing
non-overlapping occurrences of `old` and never rescanning inserted text.
(The guard on the empty pattern never fires in this script; every pattern
used below is a fixed non-empty literal.) -/
def replaceAll (pat rep s : List Char) : List Char :=
  replaceAllAux pat rep s.length s

/-- Whitespace for Python `str.strip()`. -/
def isPySpace (c : Char) : Bool :=
  c = ' ' || c = '\t' || c = '\n' || c = '\r' || c = '\x0b' || c = '\x0c'

/-- Python `s.strip()`: drop whitespace from both ends. -/
def pythonStrip (s : List Char) : List Char :=
  (((s.dropWhile isPySpace).reverse.dropWhile isPySpace)).reverse

/-- `pat` occurs in `s` starting at index `i`. -/
def occursAt (pat s : List Char) (i : Nat) : Bool :=
  pat.isPrefixOf (s.drop i)

/-! ## Fixed strings of the script -/

/-- The placeholder token replaced by the generated secret
(`generate_searxng_secret_key`). -/
def ultrasecretkey : List Char := ("ultrasecretkey").data

/-- The active security directive searched for in `docker-compose.yml`
(`check_and_fix_docker_compose_for_searxng`, line 191). -/
def capDropActive : List Char := ("cap_drop: - ALL").data

/-- The commented/marked variant the directive is replaced with on first
run (line 194) and searched for when restoring (line 201). -/
def capDropCommented : List Char :=
  ("# cap_drop: - ALL  # Temporarily commented out for first run").data

/-- The marker echoed by the in-container check when `uwsgi.ini` exists
(line 180 tests `"found" in stdout`). -/
def foundMarker : List Char := ("found").data

/-- Lowercase hexadecimal digit: the alphabet of `openssl rand -hex`
output (and of the PowerShell byte formatting). -/
def isLowerHex (c : Char) : Bool :=
  ('0' ≤ c && c ≤ '9') || ('a' ≤ c && c ≤ 'f')

/-! ## Embedding of `generate_searxng_secret_key` (lines 73-143)

The function touches the world through: two `os.path.exists` checks, one
`shutil.copyfile`, one secure-random generation (`openssl rand -hex 32`
read through `check_output(...).strip()` on the POSIX branches), and one
in-place substitution of the literal `ultrasecretkey` (sed `s|...|...|g`,
i.e. replace every occurrence; the PowerShell branch's `-replace` has the
same net effect).  Each fallible effect is an oracle field; `.error`
means the Python call raised. -/

/-- Result of one call to `generate_searxng_secret_key`.  Every
constructor is a normal return of the Python function. -/
inductive SecretOutcome where
  /-- Line 82-84: base template missing, warn and return. -/
  | noBaseWarning
  /-- Line 92-94: `shutil.copyfile` raised; error printed, return. -/
  | copyError
  /-- Line 132: substitution performed on the settings content. -/
  | success (newSettings : List Char)
  /-- Lines 134-143: generation or substitution raised; error plus
  manual remediation instructions printed, normal return. -/
  | errorWithInstructions
deriving DecidableEq

/-- World state and effect oracles seen by `generate_searxng_secret_key`. -/
structure SecretEnv where
  /-- Does `searxng/settings-base.yml` exist? -/
  baseExists : Bool
  /-- Does `searxng/settings.yml` exist? -/
  settingsExists : Bool
  /-- Content of `searxng/settings-base.yml`. -/
  baseContent : List Char
  /-- Content of `searxng/settings.yml` (when it exists). -/
  settingsContent : List Char
  /-- Outcome of `shutil.copyfile(settings_base_path, settings_path)`. -/
  copyResult : Except PyErr Unit
  /-- Outcome of `subprocess.check_output(["openssl","rand","-hex","32"])`:
  raw stdout on success. -/
  opensslResult : Except PyErr (List Char)
  /-- Outcome of the `sed -i` substitution subprocess. -/
  sedResult : Except PyErr Unit

/-- Lines 98-143: the `try` block generating the key and substituting it
into `settings` (the current content of `settings.yml`).  Any exception
from either subprocess is caught by `except Exception` (lines 134-143). -/
def searxngSubstitute (env : SecretEnv) (settings : List Char) :
    Except PyErr SecretOutcome :=
  match env.opensslResult with
  | .error _ => .ok .errorWithInstructions
  | .ok out =>
    match env.sedResult with
    | .error _ => .ok .errorWithInstructions
    | .ok _ =>
      .ok (.success (replaceAll ultrasecretkey (pythonStrip out) settings))

/-- Lines 73-143 of `start_services.py`.  Note the source checks
`settings-base.yml` first (line 82) and returns before ever looking at
`settings.yml` when the base template is missing. -/
def generate_searxng_secret_key (env : SecretEnv) : Except PyErr SecretOutcome :=
  if !env.baseExists then
    .ok .noBaseWarning
  else if !env.settingsExists then
    match env.copyResult with
    | .error _ => .ok .copyError
    | .ok _ => searxngSubstitute env env.baseContent
  else
    searxngSubstitute env env.settingsContent

/-! ## Embedding of `check_and_fix_docker_compose_for_searxng` (lines 145-211) -/

/-- Result of one call to `check_and_fix_docker_compose_for_searxng`.
Every constructor is a normal return of the Python function. -/
inductive ComposeOutcome where
  /-- Lines 148-150: `docker-compose.yml` missing, warn and return. -/
  | missingWarning
  /-- Neither rewrite branch fired; the file is left as read. -/
  | unchanged (content : List Char)
  /-- One rewrite branch fired and the write succeeded. -/
  | written (newContent : List Char)
  /-- Lines 210-211: the read, the write or anything else in the outer
  `try` raised; error printed, normal return. -/
  | errorLogged
deriving DecidableEq

/-- World state and effect oracles seen by
`check_and_fix_docker_compose_for_searxng`. -/
structure ComposeEnv where
  /-- Does `docker-compose.yml` exist? -/
  composeExists : Bool
  /-- Outcome of reading `docker-compose.yml` (lines 154-155). -/
  readResult : Except PyErr (List Char)
  /-- Outcome of `docker ps --filter name=searxng --format ...`
  (lines 163-166, `check=True`): raw stdout on success. -/
  psResult : Except PyErr (List Char)
  /-- Outcome of `docker exec <name> sh -c [ -f /etc/searxng/uwsgi.ini ]
  && echo found || echo not_found` (lines 175-178, `check=False`, so a
  non-zero exit still returns `.ok` with whatever stdout was produced). -/
  execResult : Except PyErr (List Char)
  /-- Outcome of writing the modified compose file back. -/
  writeResult : Except PyErr Unit

/-- Lines 157-189: the first-run determination.  `is_first_run` defaults
to `True`; stdout of `docker ps` is stripped and split on newlines; if
some name is non-empty the script execs into the container and tests
`"found" in stdout`; any exception in the inner `try` falls back to
first-run. -/
def determineFirstRun (env : ComposeEnv) : Bool :=
  match env.psResult with
  | .error _ => true
  | .ok out =>
    let searxngContainers := (pythonStrip out).splitOn ('\n')
    if searxngContainers.any (fun c => !c.isEmpty) then
      match env.execResult with
      | .error _ => true
      | .ok execOut => if containsSub foundMarker execOut then false else true
    else
      true

/-- Lines 191-208: the pure content rewrite, as a function of the
first-run boolean and the file content. -/
def applyComposeToggle (isFirstRun : Bool) (content : List Char) : List Char :=
  if isFirstRun && containsSub capDropActive content then
    replaceAll capDropActive capDropCommented content
  else if !isFirstRun && containsSub capDropCommented content then
    replaceAll capDropCommented capDropActive content
  else
    content

/-- Lines 145-211 of `start_services.py`. -/
def check_and_fix_docker_compose_for_searxng (env : ComposeEnv) :
    Except PyErr ComposeOutcome :=
  if !env.composeExists then
    .ok .missingWarning
  else
    match env.readResult with
    | .error _ => .ok .errorLogged
    | .ok content =>
      let isFirstRun := determineFirstRun env
      if isFirstRun && containsSub capDropActive content then
        match env.writeResult with
        | .error _ => .ok .errorLogged
        | .ok _ => .ok (.written (replaceAll capDropActive capDropCommented content))
      else if !isFirstRun && containsSub capDropCommented content then
        match env.writeResult with
        | .error _ => .ok .errorLogged
        | .ok _ => .ok (.written (replaceAll capDropCommented capDropActive content))
      else
        .ok (.unchanged content)

/-! ## The two-state invariant on the compose file (spec section 3) -/

/-- The directive is present in its active textual form and not in the
commented/marked form.  (The commented form contains the active string as
a substring, so "active state" must exclude the marker.) -/
def inActiveState (content : List Char) : Bool :=
  containsSub capDropActive content && !containsSub capDropCommented content

/-- The directive is present in its commented/marked textual form. -/
def inCommentedState (content : List Char) : Bool :=
  containsSub capDropCommented content

/-- The compose file is in exactly one of the two textual states. -/
def exactlyOneDirectiveState (content : List Char) : Bool :=
  (inActiveState content && !inCommentedState content) ||
  (!inActiveState content && inCommentedState content)

/-! ## Embedding of `prepare_supabase_env` (lines 42-47) -/

/-- The two environment files touched by `prepare_supabase_env`:
`.env` at the repository root and `supabase/docker/.env`.  `none` means
the file does not exist. -/
structure EnvFiles where
  rootEnv : Option (List Char)
  destEnv : Option (List Char)
deriving DecidableEq

/-- Lines 42-47: `shutil.copyfile(".env", "supabase/docker/.env")`.
`copyfile` reads the source and overwrites the destination
unconditionally; a missing source raises (propagated to the caller). -/
def prepare_supabase_env (st : EnvFiles) : Except PyErr EnvFiles :=
  match st.rootEnv with
  | none => .error ("FileNotFoundError")
  | some c => .ok { rootEnv := some c, destEnv := some c }

/-! ## Embedding of `clone_supabase_repo` (lines 23-40) and `run_command` -/

/-- `run_command` (lines 18-21) uses `check=True`: a failing command
raises `CalledProcessError` to the caller.  Running a list of commands in
order therefore stops at the first failure and propagates its error; the
trace records the commands actually invoked. -/
def runCommandsTrace (ex : List String → Except PyErr Unit) :
    List (List String) → List (List String) × Except PyErr Unit
  | [] => ([], .ok ())
  | c :: rest =>
    match ex c with
    | .error e => ([c], .error e)
    | .ok _ =>
      let r := runCommandsTrace ex rest
      (c :: r.1, r.2)

/-- The four commands run when the `supabase` directory is absent
(lines 27-34), in source order.  (The `os.chdir("supabase")` between the
first and second command only sets the working directory.) -/
def cloneCmds : List (List String) :=
  [["git", "clone", "--filter=blob:none", "--no-checkout",
      "https://github.com/supabase/supabase.git"],
   ["git", "sparse-checkout", "init", "--cone"],
   ["git", "sparse-checkout", "set", "docker"],
   ["git", "checkout", "master"]]

/-- The single command run when the directory exists (line 39). -/
def pullCmds : List (List String) := [["git", "pull"]]

/-- Lines 23-40 of `start_services.py`: branch on `os.path.exists("supabase")`. -/
def clone_supabase_repo (supabaseExists : Bool)
    (ex : List String → Except PyErr Unit) :
    List (List String) × Except PyErr Unit :=
  if supabaseExists then
    runCommandsTrace ex pullCmds
  else
    runCommandsTrace ex cloneCmds

/-! ## Embedding of `main` (lines 213-236) -/

/-- The steps of one run, in spec terminology. -/
inductive Step where
  | sync
  | envCopy
  | secret
  | firstRunToggle
  | teardown
  | startPhase1
  | sleep10
  | startPhase2
deriving DecidableEq

/-- The fixed order of `main` (lines 219-236). -/
def fullStepOrder : List Step :=
  [.sync, .envCopy, .secret, .firstRunToggle, .teardown, .startPhase1,
    .sleep10, .startPhase2]

/-- Effect oracles for a whole run of `main` after argument parsing. -/
structure MainEnv where
  /-- Outcome of `clone_supabase_repo` (all its `run_command` calls). -/
  syncResult : Except PyErr Unit
  /-- Outcome of `prepare_supabase_env` (`shutil.copyfile`). -/
  envCopyResult : Except PyErr Unit
  secretEnv : SecretEnv
  composeEnv : ComposeEnv
  /-- Outcome of `stop_existing_containers` (compose down, `check=True`). -/
  teardownResult : Except PyErr Unit
  /-- Outcome of `start_supabase` (compose up phase 1, `check=True`). -/
  phase1Result : Except PyErr Unit
  /-- Outcome of `start_local_ai` (compose up phase 2, `check=True`). -/
  phase2Result : Except PyErr Unit

/-- Lines 219-236 of `main`: the sequential body after `parse_args`.
Returns the trace of steps reached and either `.ok ()` (run completed)
or the first uncaught exception, which aborts everything after it.
`time.sleep(10)` is the unconditional `sleep10` step. -/
def mainTrace (env : MainEnv) : List Step × Except PyErr Unit :=
  match env.syncResult with
  | .error e => ([.sync], .error e)
  | .ok _ =>
  match env.envCopyResult with
  | .error e => ([.sync, .envCopy], .error e)
  | .ok _ =>
  match generate_searxng_secret_key env.secretEnv with
  | .error e => ([.sync, .envCopy, .secret], .error e)
  | .ok _ =>
  match check_and_fix_docker_compose_for_searxng env.composeEnv with
  | .error e => ([.sync, .envCopy, .secret, .firstRunToggle], .error e)
  | .ok _ =>
  match env.teardownResult with
  | .error e => ([.sync, .envCopy, .secret, .firstRunToggle, .teardown], .error e)
  | .ok _ =>
  match env.phase1Result with
  | .error e =>
    ([.sync, .envCopy, .secret, .firstRunToggle, .teardown, .startPhase1], .error e)
  | .ok _ =>
  match env.phase2Result with
  | .error e =>
    ([.sync, .envCopy, .secret, .firstRunToggle, .teardown, .startPhase1,
      .sleep10, .startPhase2], .error e)
  | .ok _ =>
    ([.sync, .envCopy, .secret, .firstRunToggle, .teardown, .startPhase1,
      .sleep10, .startPhase2], .ok ())

/-- The profile values accepted by `argparse` (line 215, `choices=[...]`),
with default `cpu` when `--profile` is omitted. -/
def profileChoices : List String := ["cpu", "gpu-nvidia", "gpu-amd", "none"]

/-- Argument parsing (lines 214-217).  A value outside `choices` makes
`argparse` print a usage error and call `sys.exit(2)`. -/
def parseProfile : Option String → Except Nat String
  | none => .ok ("cpu")
  | some v => if v ∈ profileChoices then .ok v else .error 2

/-- `main` including argument parsing: parsing happens first (line 217)
and a parse failure exits with code 2 before any orchestration step. -/
def mainWithArgs (arg : Option String) (env : MainEnv) :
    Except Nat (List Step × Except PyErr Unit) :=
  match parseProfile arg with
  | .error code => .error code
  | .ok _ => .ok (mainTrace env)

/-! ## Concrete environments used in closed theorems -/

/-- First-run conditions for C1: `docker ps` succeeds with empty stdout
(no running SearXNG container) and the compose file consists of the
already-commented marker line. -/
def composeEnvNoContainer : ComposeEnv :=
  { composeExists := true
    readResult := .ok capDropCommented
    psResult := .ok []
    execResult := .ok []
    writeResult := .ok () }

/-- The C5 scenario: a SearXNG container is running (`docker ps` prints
its name) and the in-container inspection does NOT find the marker file,
so the shell command echoes `not_found`. -/
def composeEnvMarkerAbsent : ComposeEnv :=
  { composeExists := true
    readResult := .ok capDropActive
    psResult := .ok (("searxng\n").data)
    execResult := .ok (("not_found\n").data)
    writeResult := .ok () }

/-- C3's counterexample scenario: the settings file exists but the base
template does not, all effect oracles benign. -/
def secretEnvNoBase : SecretEnv :=
  { baseExists := false
    settingsExists := true
    baseContent := []
    settingsContent := ultrasecretkey
    copyResult := .ok ()
    opensslResult := .ok (List.replicate 64 ('a'))
    sedResult := .ok () }

/-- A run environment whose fatal-step oracles all succeed, for use in
closed witnesses. -/
def mainEnvAllOk : MainEnv :=
  { syncResult := .ok (), envCopyResult := .ok (),
    secretEnv := secretEnvNoBase, composeEnv := composeEnvNoContainer,
    teardownResult := .ok (), phase1Result := .ok (), phase2Result := .ok () }

/-! ## Lemmas about the string primitives -/

theorem replaceAllAux_fuel_irrel (pat rep : List Char) :
    ∀ f₁ : Nat, ∀ f₂ : Nat, ∀ s : List Char, s.length ≤ f₁ → s.length ≤ f₂ →
      replaceAllAux pat rep f₁ s = replaceAllAux pat rep f₂ s := by
  intro f₁
  induction f₁ with
  | zero =>
    intro f₂ s h₁ _
    have hs : s = [] := List.length_eq_zero.mp (Nat.le_zero.mp h₁)
    subst hs
    cases f₂ <;> rfl
  | succ f ih =>
    intro f₂ s h₁ h₂
    match s with
    | [] => cases f₂ <;> rfl
    | c :: rest =>
      have hf₂ : ∃ g, f₂ = g + 1 := by
        cases f₂ with
        | zero => simp at h₂
        | succ g => exact ⟨g, rfl⟩
      obtain ⟨g, rfl⟩ := hf₂
      rw [replaceAllAux, replaceAllAux]
      by_cases hc : (!pat.isEmpty && pat.isPrefixOf (c :: rest)) = true
      · have hp : 1 ≤ pat.length := by
          have := (Bool.and_eq_true _ _).mp hc |>.1
          cases pat with
          | nil => simp at this
          | cons _ _ => simp
        rw [if_pos hc, if_pos hc]
        congr 1
        apply ih
        · simp only [List.length_drop, List.length_cons]
          simp only [List.length_cons] at h₁
          omega
        · simp only [List.length_drop, List.length_cons]
          simp only [List.length_cons] at h₂
          omega
      · rw [if_neg hc, if_neg hc]
        congr 1
        apply ih
        · simp only [List.length_cons] at h₁; omega
        · simp only [List.length_cons] at h₂; omega

theorem replaceAll_nil (pat rep : List Char) : replaceAll pat rep [] = [] := rfl

theorem replaceAll_cons (pat rep : List Char) (c : Char) (rest : List Char) :
    replaceAll pat rep (c :: rest) =
      if !pat.isEmpty && pat.isPrefixOf (c :: rest) then
        rep ++ replaceAll pat rep ((c :: rest).drop pat.length)
      else
        c :: replaceAll pat rep rest := by
  show replaceAllAux pat rep (rest.length + 1) (c :: rest) = _
  rw [replaceAllAux]
  by_cases h : (!pat.isEmpty && pat.isPrefixOf (c :: rest)) = true
  · have hp : 1 ≤ pat.length := by
      have := (Bool.and_eq_true _ _).mp h |>.1
      cases pat with
      | nil => simp at this
      | cons _ _ => simp
    rw [if_pos h, if_pos h]
    congr 1
    apply replaceAllAux_fuel_irrel
    · simp only [List.length_drop, List.length_cons]; omega
    · simp only [List.length_drop, List.length_cons]; omega
  · rw [if_neg h, if_neg h]
    rfl

theorem isPrefixOf_iff_append :
    ∀ p s : List Char, p.isPrefixOf s = true ↔ ∃ t, p ++ t = s
  | [], s => by simp [List.isPrefixOf]
  | a :: as, [] => by simp [List.isPrefixOf]
  | a :: as, b :: bs => by
    simp only [List.isPrefixOf, Bool.and_eq_true, beq_iff_eq]
    constructor
    · rintro ⟨rfl, h⟩
      obtain ⟨t, rfl⟩ := (isPrefixOf_iff_append as bs).mp h
      exact ⟨t, rfl⟩
    · rintro ⟨t, ht⟩
      injection ht with h1 h2
      exact ⟨h1, (isPrefixOf_iff_append as bs).mpr ⟨t, h2⟩⟩

theorem containsSub_iff_parts (pat : List Char) :
    ∀ s, containsSub pat s = true ↔ ∃ x y, x ++ pat ++ y = s := by
  intro s
  induction s with
  | nil =>
    simp only [containsSub, List.isEmpty_iff]
    constructor
    · rintro rfl
      exact ⟨[], [], rfl⟩
    · rintro ⟨x, y, h⟩
      rcases List.append_eq_nil.mp h with ⟨h1, -⟩
      exact (List.append_eq_nil.mp h1).2
  | cons c rest ih =>
    simp only [containsSub, Bool.or_eq_true]
    constructor
    · rintro (h | h)
      · obtain ⟨t, ht⟩ := (isPrefixOf_iff_append pat (c :: rest)).mp h
        exact ⟨[], t, by simpa using ht⟩
      · obtain ⟨x, y, hxy⟩ := ih.mp h
        exact ⟨c :: x, y, by rw [List.cons_append, List.cons_append, hxy]⟩
    · rintro ⟨x, y, hxy⟩
      cases x with
      | nil =>
        left
        exact (isPrefixOf_iff_append pat (c :: rest)).mpr ⟨y, by simpa using hxy⟩
      | cons d x' =>
        right
        injection hxy with h1 h2
        exact ih.mpr ⟨x', y, h2⟩

theorem containsSub_parts (pat x y : List Char) :
    containsSub pat (x ++ pat ++ y) = true :=
  (containsSub_iff_parts pat _).mpr ⟨x, y, rfl⟩

theorem occursAt_cons_succ (pat : List Char) (c : Char) (s : List Char) (i : Nat) :
    occursAt pat (c :: s) (i + 1) = occursAt pat s i := rfl

theorem occursAt_append_right_shift (pat x s : List Char) (i : Nat)
    (h : occursAt pat s i = true) : occursAt pat (x ++ s) (x.length + i) = true := by
  unfold occursAt at *
  rw [List.drop_append]
  exact h

theorem occursAt_le (pat s : List Char) (i : Nat) (hp : pat ≠ [])
    (h : occursAt pat s i = true) : i + pat.length ≤ s.length := by
  obtain ⟨t, ht⟩ := (isPrefixOf_iff_append pat (s.drop i)).mp h
  have hl : pat.length + t.length = s.length - i := by
    have hlen := congrArg List.length ht
    simpa [List.length_append, List.length_drop] using hlen
  have hp1 : 0 < pat.length := List.length_pos.mpr hp
  omega

theorem containsSub_iff_occursAt (pat : List Char) :
    ∀ s, containsSub pat s = true ↔ ∃ i, occursAt pat s i = true := by
  intro s
  induction s with
  | nil =>
    constructor
    · intro h
      refine ⟨0, ?_⟩
      simp only [containsSub, List.isEmpty_iff] at h
      simp [occursAt, h, List.isPrefixOf]
    · rintro ⟨i, hi⟩
      simp only [occursAt, List.drop_nil] at hi
      cases pat with
      | nil => simp [containsSub]
      | cons p ps => simp [List.isPrefixOf] at hi
  | cons c rest ih =>
    simp only [containsSub, Bool.or_eq_true]
    constructor
    · rintro (h | h)
      · exact ⟨0, by simpa [occursAt] using h⟩
      · obtain ⟨i, hi⟩ := ih.mp h
        exact ⟨i + 1, by simpa [occursAt_cons_succ] using hi⟩
    · rintro ⟨i, hi⟩
      cases i with
      | zero => exact Or.inl (by simpa [occursAt] using hi)
      | succ j => exact Or.inr (ih.mpr ⟨j, by simpa [occursAt_cons_succ] using hi⟩)

theorem occursAt_getElem (pat s : List Char) (i : Nat) (h : occursAt pat s i = true)
    (t : Nat) (ht : t < pat.length) : s[i + t]? = pat[t]? := by
  obtain ⟨r, hr⟩ := (isPrefixOf_iff_append pat (s.drop i)).mp h
  rw [← List.getElem?_drop, ← hr, List.getElem?_append, if_pos ht]

theorem replaceAll_of_not_contains (pat rep : List Char) :
    ∀ s, containsSub pat s = false → replaceAll pat rep s = s := by
  intro s
  induction s with
  | nil => intro _; rfl
  | cons c rest ih =>
    intro h
    simp only [containsSub, Bool.or_eq_false_iff] at h
    rw [replaceAll_cons, if_neg (by simp [h.1]), ih h.2]

theorem replaceAll_parts (pat rep : List Char) (hp : pat ≠ []) :
    ∀ s, containsSub pat s = true → ∃ x y, replaceAll pat rep s = x ++ rep ++ y := by
  intro s
  induction s with
  | nil => intro h; simp [containsSub, List.isEmpty_iff, hp] at h
  | cons c rest ih =>
    intro h
    by_cases hpre : pat.isPrefixOf (c :: rest) = true
    · refine ⟨[], replaceAll pat rep ((c :: rest).drop pat.length), ?_⟩
      rw [replaceAll_cons, if_pos (by simp [hpre, List.isEmpty_iff, hp])]
      rfl
    · have hr : containsSub pat rest = true := by
        simp only [containsSub, Bool.or_eq_true] at h
        rcases h with h | h
        · exact absurd h hpre
        · exact h
      obtain ⟨x, y, hxy⟩ := ih hr
      refine ⟨c :: x, y, ?_⟩
      rw [replaceAll_cons, if_neg (by simp [hpre]), hxy]
      rfl

theorem replaceAll_append_head (pat rep b : List Char) (hp : pat ≠ []) :
    replaceAll pat rep (pat ++ b) = rep ++ replaceAll pat rep b := by
  obtain ⟨p0, ptail, hpat⟩ : ∃ p0 ptail, pat = p0 :: ptail := by
    cases pat with
    | nil => exact absurd rfl hp
    | cons p0 pt => exact ⟨p0, pt, rfl⟩
  subst hpat
  have hpre : (p0 :: ptail).isPrefixOf ((p0 :: ptail) ++ b) = true :=
    (isPrefixOf_iff_append _ _).mpr ⟨b, rfl⟩
  rw [List.cons_append, replaceAll_cons, if_pos (by simp [hpre])]
  rw [← List.cons_append, List.drop_left]

theorem replaceAll_single (pat rep : List Char) (hp : pat ≠ []) :
    ∀ a b : List Char,
      (∀ i, occursAt pat (a ++ pat ++ b) i = true → i = a.length) →
      replaceAll pat rep (a ++ pat ++ b) = a ++ rep ++ b := by
  intro a
  induction a with
  | nil =>
    intro b huniq
    simp only [List.nil_append, List.length_nil] at huniq ⊢
    have hnb : containsSub pat b = false := by
      by_contra hcb
      have hcb' : containsSub pat b = true := by
        cases hb : containsSub pat b
        · exact absurd hb hcb
        · rfl
      obtain ⟨j, hj⟩ := (containsSub_iff_occursAt pat b).mp hcb'
      have := huniq (pat.length + j) (occursAt_append_right_shift pat pat b j hj)
      have hp1 : 0 < pat.length := List.length_pos.mpr hp
      omega
    rw [replaceAll_append_head pat rep b hp, replaceAll_of_not_contains pat rep b hnb]
  | cons d a' ih =>
    intro b huniq
    have huniq' : ∀ i, occursAt pat (a' ++ pat ++ b) i = true → i = a'.length := by
      intro i hi
      have h2 := huniq (i + 1)
        (by rw [show (d :: a') ++ pat ++ b = d :: (a' ++ pat ++ b) from rfl,
              occursAt_cons_succ]; exact hi)
      simp only [List.length_cons] at h2
      omega
    have hncond :
        ¬ ((!pat.isEmpty && pat.isPrefixOf (d :: (a' ++ pat ++ b))) = true) := by
      intro hcond
      have hpre := ((Bool.and_eq_true _ _).mp hcond).2
      have h0 : occursAt pat ((d :: a') ++ pat ++ b) 0 = true := hpre
      have := huniq 0 h0
      simp [List.length_cons] at this
    show replaceAll pat rep (d :: (a' ++ pat ++ b)) = d :: (a' ++ rep ++ b)
    rw [replaceAll_cons, if_neg hncond, ih b huniq']

/-! ## Hex keys and absence of the placeholder after substitution -/

theorem isPrefixOf_append_left (p x y : List Char) (h : p.isPrefixOf x = true) :
    p.isPrefixOf (x ++ y) = true := by
  obtain ⟨r, hr⟩ := (isPrefixOf_iff_append p x).mp h
  exact (isPrefixOf_iff_append p (x ++ y)).mpr
    ⟨r ++ y, by rw [← List.append_assoc, hr]⟩

theorem isPrefixOf_of_append_le (p x y : List Char) (hle : p.length ≤ x.length)
    (h : p.isPrefixOf (x ++ y) = true) : p.isPrefixOf x = true := by
  obtain ⟨t, ht⟩ := (isPrefixOf_iff_append p (x ++ y)).mp h
  refine (isPrefixOf_iff_append p x).mpr ⟨t.take (x.length - p.length), ?_⟩
  have h1 := congrArg (List.take x.length) ht
  rw [List.take_append_eq_append_take, List.take_of_length_le hle,
    List.take_append_eq_append_take, List.take_length, Nat.sub_self,
    List.take_zero, List.append_nil] at h1
  exact h1

/-- Dropping `j ≤ a.length` characters from `(a ++ mid) ++ b` drops them
inside `a`. -/
theorem drop_through_append (a mid b : List Char) (j : Nat) (hj : j ≤ a.length) :
    ((a ++ mid) ++ b).drop j = ((a.drop j ++ mid) ++ b) := by
  have h1 : j - (a ++ mid).length = 0 := by
    simp only [List.length_append]; omega
  have h2 : j - a.length = 0 := Nat.sub_eq_zero_of_le hj
  rw [List.drop_append_eq_append_drop, h1, List.drop_zero,
    List.drop_append_eq_append_drop, h2, List.drop_zero]

/-- Element lookup in the middle block of `(a ++ mid) ++ b`. -/
theorem getElem_mid (a mid b : List Char) (n : Nat)
    (h1 : a.length ≤ n) (h2 : n < a.length + mid.length) :
    ((a ++ mid) ++ b)[n]? = mid[n - a.length]? := by
  rw [List.getElem?_append, if_pos (by simp only [List.length_append]; omega),
    List.getElem?_append, if_neg (by omega)]

/-- Characters of the placeholder used below. -/
theorem ultrasecretkey_facts :
    ultrasecretkey.length = 14 ∧ ultrasecretkey[0]? = some ('u') ∧
      ultrasecretkey[13]? = some ('y') ∧ isLowerHex ('u') = false ∧
      isLowerHex ('y') = false := by decide

/-- After replacing the unique occurrence of the placeholder by an
all-hex string of length at least 14, the placeholder no longer occurs
anywhere: occurrences inside the untouched parts would contradict
uniqueness, and occurrences overlapping the inserted key would force a
non-hex character (`u` or `y`) to be a character of the key. -/
theorem no_placeholder_after_subst (a b key : List Char)
    (hkLen : 14 ≤ key.length)
    (hkHex : ∀ c ∈ key, isLowerHex c = true)
    (huniq : ∀ i, occursAt ultrasecretkey (a ++ ultrasecretkey ++ b) i = true →
      i = a.length) :
    containsSub ultrasecretkey (a ++ key ++ b) = false := by
  by_contra hcn
  have hc : containsSub ultrasecretkey (a ++ key ++ b) = true := by
    cases h : containsSub ultrasecretkey (a ++ key ++ b)
    · exact absurd h hcn
    · rfl
  obtain ⟨j, hj⟩ := (containsSub_iff_occursAt _ _).mp hc
  have hplen : ultrasecretkey.length = 14 := ultrasecretkey_facts.1
  have hpne : ultrasecretkey ≠ [] := by decide
  have hjle := occursAt_le ultrasecretkey _ j hpne hj
  rw [hplen] at hjle
  simp only [List.length_append] at hjle
  by_cases hA : j + 14 ≤ a.length
  · -- occurrence entirely inside `a`: contradicts uniqueness
    have hdropR := drop_through_append a key b j (by omega)
    have hpref : ultrasecretkey.isPrefixOf ((a.drop j ++ key) ++ b) = true := by
      rw [← hdropR]; exact hj
    have h1 : ultrasecretkey.isPrefixOf (a.drop j ++ key) = true :=
      isPrefixOf_of_append_le _ _ _
        (by simp only [List.length_append, List.length_drop]; omega) hpref
    have h2 : ultrasecretkey.isPrefixOf (a.drop j) = true :=
      isPrefixOf_of_append_le _ _ _
        (by simp only [List.length_drop]; omega) h1
    have hout : occursAt ultrasecretkey (a ++ ultrasecretkey ++ b) j = true := by
      unfold occursAt
      rw [drop_through_append a ultrasecretkey b j (by omega)]
      exact isPrefixOf_append_left _ _ _ (isPrefixOf_append_left _ _ _ h2)
    have := huniq j hout
    omega
  · by_cases hB : j < a.length
    · -- occurrence crossing the left edge of the key: its `y` lands in the key
      have hy : (a ++ key ++ b)[j + 13]? = ultrasecretkey[13]? :=
        occursAt_getElem _ _ _ hj 13 (by omega)
      rw [getElem_mid a key b (j + 13) (by omega) (by omega)] at hy
      rw [ultrasecretkey_facts.2.2.1] at hy
      have hmem : ('y') ∈ key := List.getElem?_mem hy
      have := hkHex _ hmem
      rw [ultrasecretkey_facts.2.2.2.2] at this
      exact Bool.false_ne_true this
    · by_cases hC : j < a.length + key.length
      · -- occurrence starting inside the key: its `u` lands in the key
        have hu : (a ++ key ++ b)[j + 0]? = ultrasecretkey[0]? :=
          occursAt_getElem _ _ _ hj 0 (by omega)
        rw [getElem_mid a key b (j + 0) (by omega) (by omega)] at hu
        rw [ultrasecretkey_facts.2.1] at hu
        have hmem : ('u') ∈ key := List.getElem?_mem hu
        have := hkHex _ hmem
        rw [ultrasecretkey_facts.2.2.2.1] at this
        exact Bool.false_ne_true this
      · -- occurrence entirely inside `b`: contradicts uniqueness
        have hdropR : ((a ++ key) ++ b).drop j = b.drop (j - (a.length + key.length)) := by
          rw [List.drop_append_eq_append_drop,
            List.drop_of_length_le (by simp only [List.length_append]; omega)]
          simp only [List.nil_append, List.length_append]
        have hoccb : occursAt ultrasecretkey b (j - (a.length + key.length)) = true := by
          unfold occursAt
          rw [← hdropR]
          exact hj
        have hshift := occursAt_append_right_shift ultrasecretkey
          (a ++ ultrasecretkey) b _ hoccb
        have := huniq _ hshift
        simp only [List.length_append, hplen] at this
        omega

/-! ## `strip` is the identity on hex strings -/

theorem not_pyspace_of_hex (c : Char) (h : isLowerHex c = true) :
    isPySpace c = false := by
  unfold isPySpace
  simp only [Bool.or_eq_false_iff, decide_eq_false_iff_not]
  and_intros <;> (rintro rfl; exact absurd h (by decide))

theorem dropWhile_pyspace_of_hex (l : List Char)
    (h : ∀ c ∈ l, isLowerHex c = true) : l.dropWhile isPySpace = l := by
  cases l with
  | nil => rfl
  | cons c t =>
    rw [List.dropWhile_cons, not_pyspace_of_hex c (h c (by simp))]
    simp

theorem pythonStrip_of_hex (l : List Char)
    (h : ∀ c ∈ l, isLowerHex c = true) : pythonStrip l = l := by
  unfold pythonStrip
  rw [dropWhile_pyspace_of_hex l h,
    dropWhile_pyspace_of_hex l.reverse
      (by intro c hc; exact h c (List.mem_reverse.mp hc)),
    List.reverse_reverse]

/-! ## The commented marker contains the active directive -/

theorem capDropCommented_decomp :
    capDropCommented =
      (("# ").data ++ capDropActive) ++
        ("  # Temporarily commented out for first run").data := by decide

theorem containsSub_active_of_commented (content : List Char)
    (h : containsSub capDropCommented content = true) :
    containsSub capDropActive content = true := by
  obtain ⟨x, y, hxy⟩ := (containsSub_iff_parts _ _).mp h
  refine (containsSub_iff_parts _ _).mpr
    ⟨x ++ ("# ").data, ("  # Temporarily commented out for first run").data ++ y, ?_⟩
  rw [← hxy, capDropCommented_decomp]
  simp [List.append_assoc]

/-! ## The two soft-fail functions always return normally -/

theorem searxngSubstitute_returns (env : SecretEnv) (settings : List Char) :
    ∃ o, searxngSubstitute env settings = .ok o := by
  unfold searxngSubstitute
  cases h1 : env.opensslResult with
  | error e => exact ⟨_, rfl⟩
  | ok out =>
    cases h2 : env.sedResult with
    | error e => exact ⟨_, rfl⟩
    | ok u => exact ⟨_, rfl⟩

theorem generate_searxng_secret_key_returns (env : SecretEnv) :
    ∃ o, generate_searxng_secret_key env = .ok o := by
  unfold generate_searxng_secret_key
  by_cases hb : (!env.baseExists) = true
  · rw [if_pos hb]; exact ⟨_, rfl⟩
  · rw [if_neg hb]
    by_cases hs : (!env.settingsExists) = true
    · rw [if_pos hs]
      cases env.copyResult with
      | error e => exact ⟨_, rfl⟩
      | ok u => exact searxngSubstitute_returns env env.baseContent
    · rw [if_neg hs]
      exact searxngSubstitute_returns env env.settingsContent

theorem check_and_fix_returns (env : ComposeEnv) :
    ∃ o, check_and_fix_docker_compose_for_searxng env = .ok o := by
  unfold check_and_fix_docker_compose_for_searxng
  by_cases hc : (!env.composeExists) = true
  · rw [if_pos hc]; exact ⟨_, rfl⟩
  · rw [if_neg hc]
    cases env.readResult with
    | error e => exact ⟨_, rfl⟩
    | ok content =>
      dsimp only
      by_cases h1 : (determineFirstRun env && containsSub capDropActive content) = true
      · rw [if_pos h1]
        cases env.writeResult with
        | error e => exact ⟨_, rfl⟩
        | ok u => exact ⟨_, rfl⟩
      · rw [if_neg h1]
        by_cases h2 :
            (!determineFirstRun env && containsSub capDropCommented content) = true
        · rw [if_pos h2]
          cases env.writeResult with
          | error e => exact ⟨_, rfl⟩
          | ok u => exact ⟨_, rfl⟩
        · rw [if_neg h2]
          exact ⟨_, rfl⟩

/-! ## Command sequences run by `run_command` -/

theorem runCommandsTrace_spec (ex : List String → Except PyErr Unit) :
    ∀ cmds : List (List String), ∃ n, n ≤ cmds.length ∧
      (runCommandsTrace ex cmds).1 = cmds.take n ∧
      ((runCommandsTrace ex cmds).2 = .ok () → n = cmds.length) ∧
      (∀ e, (runCommandsTrace ex cmds).2 = .error e →
        ∃ h : n - 1 < cmds.length, 1 ≤ n ∧ ex (cmds.get ⟨n - 1, h⟩) = .error e) := by
  intro cmds
  induction cmds with
  | nil => exact ⟨0, by simp [runCommandsTrace]⟩
  | cons c rest ih =>
    obtain ⟨n, hn, htr, hok, herr⟩ := ih
    cases hc : ex c with
    | error e =>
      refine ⟨1, by simp, ?_, ?_, ?_⟩
      · simp [runCommandsTrace, hc]
      · intro h
        simp [runCommandsTrace, hc] at h
      · intro e' he'
        simp only [runCommandsTrace, hc] at he'
        injection he' with he''
        exact ⟨by simp, le_refl 1, by simp [hc, he'']⟩
    | ok u =>
      refine ⟨n + 1, by simp only [List.length_cons]; omega, ?_, ?_, ?_⟩
      · simp only [runCommandsTrace, hc, List.take_succ_cons]
        rw [htr]
      · intro h
        simp only [runCommandsTrace, hc] at h
        have := hok h
        simp only [List.length_cons]
        omega
      · intro e' he'
        simp only [runCommandsTrace, hc] at he'
        obtain ⟨hlt, h1, hcmd⟩ := herr e' he'
        obtain ⟨m, rfl⟩ : ∃ m, n = m + 1 := ⟨n - 1, by omega⟩
        refine ⟨by simp only [List.length_cons]; omega, by omega, ?_⟩
        simpa using hcmd

/-! ## Claims -/

/-- **C1.** The claim says commenting out the directive is idempotent: under
first-run conditions an already-commented file is left unchanged.  The code
violates this: the commented marker itself contains the substring
`cap_drop: - ALL`, so line 191's containment test fires and line 194's
`replace` rewrites the already-commented line into a doubly-marked one.
This theorem evaluates the embedded function on exactly that input: the
detection does conclude first-run, yet the file is rewritten to a new,
different content rather than left unchanged. -/
theorem claim_C1_commenting_not_idempotent :
    determineFirstRun composeEnvNoContainer = true ∧
    check_and_fix_docker_compose_for_searxng composeEnvNoContainer =
      .ok (.written (replaceAll capDropActive capDropCommented capDropCommented)) ∧
    replaceAll capDropActive capDropCommented capDropCommented =
      ("# # cap_drop: - ALL  # Temporarily commented out for first run  # Temporarily commented out for first run").data ∧
    replaceAll capDropActive capDropCommented capDropCommented ≠ capDropCommented :=
  ⟨by decide, rfl, by decide, by decide⟩

/-- Content containing the marker is in exactly one state (the commented
one, since the active state excludes the marker). -/
theorem exactlyOne_of_commented (s : List Char)
    (h : inCommentedState s = true) : exactlyOneDirectiveState s = true := by
  unfold exactlyOneDirectiveState inActiveState inCommentedState at *
  rw [h]
  simp

/-- Content containing the active string but not the marker is in exactly
one state (the active one). -/
theorem exactlyOne_of_active_only (s : List Char)
    (hA : containsSub capDropActive s = true)
    (hM : containsSub capDropCommented s = false) :
    exactlyOneDirectiveState s = true := by
  unfold exactlyOneDirectiveState inActiveState inCommentedState
  rw [hA, hM]
  simp

/-- **C2.** Every run of the content rewrite of First-Run Adjustment, for
every first-run determination, preserves the invariant that the compose
content is in exactly one of the two textual directive states (active
without the marker, or marked). -/
theorem claim_C2_directive_state_invariant (firstRun : Bool) (content : List Char)
    (h : exactlyOneDirectiveState content = true) :
    exactlyOneDirectiveState (applyComposeToggle firstRun content) = true := by
  have hAne : capDropActive ≠ [] := by decide
  have hCne : capDropCommented ≠ [] := by decide
  have hact : containsSub capDropActive content = true := by
    simp only [exactlyOneDirectiveState, Bool.or_eq_true, Bool.and_eq_true,
      Bool.not_eq_true'] at h
    rcases h with ⟨h1, -⟩ | ⟨-, h2⟩
    · simp only [inActiveState, Bool.and_eq_true] at h1
      exact h1.1
    · exact containsSub_active_of_commented content h2
  cases firstRun with
  | true =>
    unfold applyComposeToggle
    rw [if_pos (by simp [hact])]
    obtain ⟨x, y, hxy⟩ :=
      replaceAll_parts capDropActive capDropCommented hAne content hact
    rw [hxy]
    exact exactlyOne_of_commented _ (containsSub_parts capDropCommented x y)
  | false =>
    unfold applyComposeToggle
    rw [if_neg (by simp)]
    cases hcm : containsSub capDropCommented content with
    | false =>
      rw [if_neg (by simp [hcm])]
      exact h
    | true =>
      rw [if_pos (by simp [hcm])]
      obtain ⟨x, y, hxy⟩ :=
        replaceAll_parts capDropCommented capDropActive hCne content hcm
      rw [hxy]
      have ha := containsSub_parts capDropActive x y
      cases hmr : containsSub capDropCommented (x ++ capDropActive ++ y) with
      | false => exact exactlyOne_of_active_only _ ha hmr
      | true => exact exactlyOne_of_commented _ hmr

/-- Witness for C2 at a concrete input: a compose content consisting of
the active directive, toggled under a first-run determination. -/
theorem claim_C2_witness :
    exactlyOneDirectiveState capDropActive = true ∧
    exactlyOneDirectiveState (applyComposeToggle true capDropActive) = true :=
  ⟨by decide, claim_C2_directive_state_invariant true capDropActive (by decide)⟩

/-- **C5.** The claim says an absent marker file means first-run.  The code
violates this: line 180 tests `"found" in stdout`, and `found` is a
substring of the `not_found` echoed when the marker is absent, so the
marker-absent answer is classified as not-first-run (`False`), and with
the active directive present the file is then left unchanged instead of
being commented out. -/
theorem claim_C5_marker_absent_misdetected :
    containsSub foundMarker (("not_found\n").data) = true ∧
    determineFirstRun composeEnvMarkerAbsent = false ∧
    check_and_fix_docker_compose_for_searxng composeEnvMarkerAbsent =
      .ok (.unchanged capDropActive) :=
  ⟨by decide, by decide, rfl⟩

/-- **C3 (counterexample).** The claim says that whenever the settings file
exists, the step proceeds to generate and substitute, the missing-base
soft-fail applying only when the settings file is absent.  False: the code
checks `settings-base.yml` first (line 82) and returns with only the
warning even though `settings.yml` exists, so substitution never happens. -/
theorem claim_C3_counterexample :
    secretEnvNoBase.settingsExists = true ∧
    generate_searxng_secret_key secretEnvNoBase = .ok .noBaseWarning ∧
    ∀ c, generate_searxng_secret_key secretEnvNoBase ≠ .ok (.success c) := by
  refine ⟨rfl, rfl, ?_⟩
  intro c hc
  rw [show generate_searxng_secret_key secretEnvNoBase =
      .ok SecretOutcome.noBaseWarning from rfl] at hc
  simp at hc

/-- **C3 (amended).** What the code actually does: the missing-base
soft-fail happens exactly when the base template is absent, regardless of
whether the settings file exists; only when the base template is present
(and, per the claim's scenario, the settings file too) does the step reach
secret generation, ending either in a successful substitution or in the
caught-and-logged error path. -/
theorem claim_C3_amended (env : SecretEnv) :
    (generate_searxng_secret_key env = .ok .noBaseWarning ↔
      env.baseExists = false) ∧
    (env.baseExists = true → env.settingsExists = true →
      (∃ c, generate_searxng_secret_key env = .ok (.success c)) ∨
        generate_searxng_secret_key env = .ok .errorWithInstructions) := by
  obtain ⟨be, se, bc, sc, cr, orr, sr⟩ := env
  cases be <;> cases se <;> cases cr <;> cases orr <;> cases sr <;>
    simp [generate_searxng_secret_key, searxngSubstitute]

/-- Witness for the amended C3 at a concrete input with both files
present. -/
theorem claim_C3_amended_witness :
    (∃ c, generate_searxng_secret_key
        { baseExists := true, settingsExists := true, baseContent := [],
          settingsContent := ultrasecretkey, copyResult := .ok (),
          opensslResult := .ok (List.replicate 64 ('a')),
          sedResult := .ok () } = .ok (.success c)) ∨
      generate_searxng_secret_key
        { baseExists := true, settingsExists := true, baseContent := [],
          settingsContent := ultrasecretkey, copyResult := .ok (),
          opensslResult := .ok (List.replicate 64 ('a')),
          sedResult := .ok () } = .ok .errorWithInstructions :=
  (claim_C3_amended _).2 rfl rfl

/-- **C4.** With the base template present, a settings file containing the
placeholder exactly once, and a 64-character lowercase-hex key produced by
the random source: the substitution succeeds; afterwards the content
carries the key exactly in the placeholder's place and contains no
occurrence of the placeholder; and a re-run over the substituted file
(with any further hex key) succeeds and changes nothing. -/
theorem claim_C4_secret_substitution (a b key key2 : List Char)
    (hkLen : key.length = 64)
    (hkHex : ∀ c ∈ key, isLowerHex c = true)
    (hk2Hex : ∀ c ∈ key2, isLowerHex c = true)
    (huniq : ∀ i, occursAt ultrasecretkey (a ++ ultrasecretkey ++ b) i = true →
      i = a.length) :
    generate_searxng_secret_key
        { baseExists := true, settingsExists := true, baseContent := [],
          settingsContent := a ++ ultrasecretkey ++ b, copyResult := .ok (),
          opensslResult := .ok key, sedResult := .ok () } =
      .ok (.success (a ++ key ++ b)) ∧
    containsSub ultrasecretkey (a ++ key ++ b) = false ∧
    generate_searxng_secret_key
        { baseExists := true, settingsExists := true, baseContent := [],
          settingsContent := a ++ key ++ b, copyResult := .ok (),
          opensslResult := .ok key2, sedResult := .ok () } =
      .ok (.success (a ++ key ++ b)) := by
  have hpne : ultrasecretkey ≠ [] := by decide
  have hnone : containsSub ultrasecretkey (a ++ key ++ b) = false :=
    no_placeholder_after_subst a b key (by omega) hkHex huniq
  refine ⟨?_, hnone, ?_⟩
  · simp only [generate_searxng_secret_key, searxngSubstitute]
    rw [pythonStrip_of_hex key hkHex,
      replaceAll_single ultrasecretkey key hpne a b huniq]
    simp
  · simp only [generate_searxng_secret_key, searxngSubstitute]
    rw [pythonStrip_of_hex key2 hk2Hex,
      replaceAll_of_not_contains ultrasecretkey key2 (a ++ key ++ b) hnone]
    simp

/-- Witness for C4: the settings content is the bare placeholder, the
first key is 64 `a`s, the re-run key 64 `b`s. -/
theorem claim_C4_witness :
    generate_searxng_secret_key
        { baseExists := true, settingsExists := true, baseContent := [],
          settingsContent := [] ++ ultrasecretkey ++ [], copyResult := .ok (),
          opensslResult := .ok (List.replicate 64 ('a')), sedResult := .ok () } =
      .ok (.success ([] ++ List.replicate 64 ('a') ++ [])) ∧
    containsSub ultrasecretkey ([] ++ List.replicate 64 ('a') ++ []) = false ∧
    generate_searxng_secret_key
        { baseExists := true, settingsExists := true, baseContent := [],
          settingsContent := [] ++ List.replicate 64 ('a') ++ [],
          copyResult := .ok (),
          opensslResult := .ok (List.replicate 64 ('b')), sedResult := .ok () } =
      .ok (.success ([] ++ List.replicate 64 ('a') ++ [])) :=
  claim_C4_secret_substitution [] [] (List.replicate 64 ('a'))
    (List.replicate 64 ('b')) (by decide) (by decide) (by decide)
    (by
      intro i hi
      have h14 := occursAt_le ultrasecretkey ([] ++ ultrasecretkey ++ []) i
        (by decide) hi
      have hl : ultrasecretkey.length = 14 := by decide
      have hlen : (([] : List Char) ++ ultrasecretkey ++ []).length = 14 := by decide
      simp only [List.length_nil]
      omega)

/-- **C6.** Secret Provisioning and First-Run Adjustment never raise to
their caller and never abort the run: for every world state and every
combination of subprocess and I/O failure oracles, both embedded
functions return normally (`.ok`); the outcome constructors record the
logged messages, including the printed manual remediation instructions
for secret-generation failures (`SecretOutcome.errorWithInstructions`). -/
theorem claim_C6_soft_steps_never_raise (senv : SecretEnv) (cenv : ComposeEnv) :
    (∃ o, generate_searxng_secret_key senv = .ok o) ∧
    (∃ o, check_and_fix_docker_compose_for_searxng cenv = .ok o) :=
  ⟨generate_searxng_secret_key_returns senv, check_and_fix_returns cenv⟩

/-- **C7.** `main` executes the steps in the fixed order sync, env copy,
secret, first-run toggle, teardown, phase-1 up, 10-unit sleep, phase-2 up:
the trace of invoked steps is always a prefix of that order, a run that
ends without an uncaught exception reached all eight, and phase-2 startup
appears in the trace only when the whole prefix — in particular phase-1
startup followed by the sleep — was executed before it.  A fatal failure
truncates the trace at the failing step, so no later step is invoked. -/
theorem claim_C7_step_order (env : MainEnv) :
    ∃ n, n ≤ 8 ∧ (mainTrace env).1 = fullStepOrder.take n ∧
      ((mainTrace env).2 = .ok () → n = 8) ∧
      (Step.startPhase2 ∈ (mainTrace env).1 → n = 8) := by
  obtain ⟨sr, er, se, ce, tr, p1, p2⟩ := env
  obtain ⟨o1, h1⟩ := generate_searxng_secret_key_returns se
  obtain ⟨o2, h2⟩ := check_and_fix_returns ce
  unfold mainTrace
  dsimp only
  rw [h1, h2]
  cases sr with
  | error e =>
    exact ⟨1, by decide, rfl, by simp, by simp⟩
  | ok u1 =>
  cases er with
  | error e =>
    exact ⟨2, by decide, rfl, by simp, by simp⟩
  | ok u2 =>
  cases tr with
  | error e =>
    exact ⟨5, by decide, rfl, by simp, by simp⟩
  | ok u3 =>
  cases p1 with
  | error e =>
    exact ⟨6, by decide, rfl, by simp, by simp⟩
  | ok u4 =>
  cases p2 with
  | error e => exact ⟨8, by decide, rfl, fun _ => rfl, fun _ => rfl⟩
  | ok u5 => exact ⟨8, by decide, rfl, fun _ => rfl, fun _ => rfl⟩

/-- Witness for C7 at a concrete environment whose fatal steps all
succeed: the full eight-step order is reached. -/
theorem claim_C7_witness :
    ∃ n, n ≤ 8 ∧
      (mainTrace
        { syncResult := .ok (), envCopyResult := .ok (),
          secretEnv := secretEnvNoBase, composeEnv := composeEnvNoContainer,
          teardownResult := .ok (), phase1Result := .ok (),
          phase2Result := .ok () }).1 = fullStepOrder.take n ∧
      ((mainTrace
        { syncResult := .ok (), envCopyResult := .ok (),
          secretEnv := secretEnvNoBase, composeEnv := composeEnvNoContainer,
          teardownResult := .ok (), phase1Result := .ok (),
          phase2Result := .ok () }).2 = .ok () → n = 8) ∧
      (Step.startPhase2 ∈
        (mainTrace
          { syncResult := .ok (), envCopyResult := .ok (),
            secretEnv := secretEnvNoBase, composeEnv := composeEnvNoContainer,
            teardownResult := .ok (), phase1Result := .ok (),
            phase2Result := .ok () }).1 → n = 8) :=
  claim_C7_step_order _

/-- **C8.** Repository Sync branches on directory existence.  Directory
absent: the commands attempted are, in order, a prefix of the fixed
four-command sequence (blob-filtered no-checkout clone, cone sparse init,
sparse set `docker`, checkout `master`); on success all four ran, and a
failure is the propagated error of the exact command where the trace
stops.  Directory present: the same with the single `git pull`. -/
theorem claim_C8_repo_sync (ex : List String → Except PyErr Unit) :
    (∃ n, n ≤ 4 ∧ (clone_supabase_repo false ex).1 = cloneCmds.take n ∧
      ((clone_supabase_repo false ex).2 = .ok () →
        (clone_supabase_repo false ex).1 = cloneCmds) ∧
      (∀ e, (clone_supabase_repo false ex).2 = .error e →
        ∃ h : n - 1 < cloneCmds.length, 1 ≤ n ∧
          ex (cloneCmds.get ⟨n - 1, h⟩) = .error e)) ∧
    (∃ n, n ≤ 1 ∧ (clone_supabase_repo true ex).1 = pullCmds.take n ∧
      ((clone_supabase_repo true ex).2 = .ok () →
        (clone_supabase_repo true ex).1 = pullCmds) ∧
      (∀ e, (clone_supabase_repo true ex).2 = .error e →
        1 ≤ n ∧ ex (["git", "pull"]) = .error e)) := by
  constructor
  · obtain ⟨n, hn, htr, hok, herr⟩ := runCommandsTrace_spec ex cloneCmds
    have hcl : clone_supabase_repo false ex = runCommandsTrace ex cloneCmds := rfl
    have hlen : cloneCmds.length = 4 := rfl
    refine ⟨n, by omega, by rw [hcl]; exact htr, ?_, ?_⟩
    · intro hok2
      rw [hcl] at hok2 ⊢
      rw [htr, hok hok2, hlen]
      decide
    · intro e he
      rw [hcl] at he
      exact herr e he
  · obtain ⟨n, hn, htr, hok, herr⟩ := runCommandsTrace_spec ex pullCmds
    have hcl : clone_supabase_repo true ex = runCommandsTrace ex pullCmds := rfl
    have hlen : pullCmds.length = 1 := rfl
    refine ⟨n, by omega, by rw [hcl]; exact htr, ?_, ?_⟩
    · intro hok2
      rw [hcl] at hok2 ⊢
      rw [htr, hok hok2, hlen]
      decide
    · intro e he
      rw [hcl] at he
      obtain ⟨h, h1, hcmd⟩ := herr e he
      have hn1 : n = 1 := by omega
      subst hn1
      exact ⟨le_refl 1, hcmd⟩

/-- Witness for C8 with the all-success command oracle. -/
theorem claim_C8_witness :
    ∃ n, n ≤ 4 ∧
      (clone_supabase_repo false (fun _ => .ok ())).1 = cloneCmds.take n ∧
      ((clone_supabase_repo false (fun _ => .ok ())).2 = .ok () →
        (clone_supabase_repo false (fun _ => .ok ())).1 = cloneCmds) ∧
      (∀ e, (clone_supabase_repo false (fun _ => .ok ())).2 = .error e →
        ∃ h : n - 1 < cloneCmds.length, 1 ≤ n ∧
          (fun _ => (Except.ok () : Except PyErr Unit))
              (cloneCmds.get ⟨n - 1, h⟩) = .error e) :=
  (claim_C8_repo_sync (fun _ => .ok ())).1

/-- **C9.** A profile value outside the enumerated set makes argument
parsing fail with exit code 2 before any orchestration step (the result
carries no step trace at all, so no subprocess was invoked); an omitted
`--profile` parses to `cpu`; an enumerated value proceeds into `main`'s
body. -/
theorem claim_C9_profile_validation :
    (∀ v : String, v ∉ profileChoices → ∀ env : MainEnv,
      mainWithArgs (some v) env = .error 2) ∧
    parseProfile none = .ok ("cpu") ∧
    (∀ v ∈ profileChoices, ∀ env : MainEnv,
      mainWithArgs (some v) env = .ok (mainTrace env)) := by
  refine ⟨?_, rfl, ?_⟩
  · intro v hv env
    simp only [mainWithArgs, parseProfile]
    rw [if_neg hv]
  · intro v hv env
    simp only [mainWithArgs, parseProfile]
    rw [if_pos hv]

/-- Witness for C9: the spec's own example value `tpu`. -/
theorem claim_C9_witness :
    ("tpu" : String) ∉ profileChoices ∧
    mainWithArgs (some ("tpu")) mainEnvAllOk = .error 2 :=
  ⟨by decide, claim_C9_profile_validation.1 ("tpu") (by decide) mainEnvAllOk⟩

/-- **C10.** Environment Propagation overwrites `supabase/docker/.env`
with the root `.env` unconditionally: whatever the destination held
before (existing, differing, or absent), after a successful run the
destination content equals the source content. -/
theorem claim_C10_env_overwrite (st : EnvFiles) (c : List Char)
    (h : st.rootEnv = some c) :
    prepare_supabase_env st = .ok { rootEnv := some c, destEnv := some c } := by
  unfold prepare_supabase_env
  rw [h]

/-- Witness for C10: a destination that exists and differs is replaced by
the source content. -/
theorem claim_C10_witness :
    prepare_supabase_env
        { rootEnv := some (("A=1").data), destEnv := some (("OLD=x").data) } =
      .ok { rootEnv := some (("A=1").data), destEnv := some (("A=1").data) } :=
  claim_C10_env_overwrite _ _ rfl

end StartServices
